import Mathlib

/-!
Verification of `avhttp::cookies` (src/include/avhttp/cookie.hpp) against its
natural-language specification.  The C++ header is shallowly embedded: the
record store `std::vector<http_cookie>` becomes `List http_cookie`, strings
become `String` (with character-level work done on `List Char`), and
`boost::posix_time::ptime` expiry values become `Option Int` (epoch seconds;
`none` models `not_a_date_time`, i.e. a never-expiring session cookie).
-/

namespace Avhttp

/-- Embedding of `struct cookie_t` (cookie.hpp lines 62-113): name, value,
domain, path, expiry, and the two boolean flags.  `expires = none` models
`boost::posix_time::not_a_date_time` (never expires). -/
structure http_cookie where
  name : String
  value : String
  domain : String
  path : String
  expires : Option Int
  httponly : Bool
  secure : Bool
  deriving DecidableEq

/-- Default-constructed `cookie_t` (cookie.hpp lines 64-67): both flags false,
strings empty, expiry `not_a_date_time`. -/
def default_cookie : http_cookie :=
  { name := "", value := "", domain := "", path := "", expires := none,
    httponly := false, secure := false }

/-- Modelled from the spec: the ordering of `boost::posix_time::ptime` is
external library code, not under src/.  The spec (sections 4.3 and 9) orders an
absent expiry (`none`, session cookie) above every concrete timestamp, so
`ptime_lt` is the strict order on `Option Int` with `none` as the largest
element. -/
def ptime_lt : Option Int → Option Int → Bool
  | none, _ => false
  | some _, none => true
  | some a, some b => decide (a < b)

/-- Modelled from the spec: `operator<=` on ptime as generated by boost from
the strict order, `a <= b` iff `not (b < a)`. -/
def ptime_le (a b : Option Int) : Bool := !ptime_lt b a

/-- Embedding of `cookies::find(const std::string&)` (cookie.hpp lines 360-371):
first record whose `name` equals the key. -/
def find_by_name (key : String) (l : List http_cookie) : Option http_cookie :=
  l.find? (fun ck => ck.name == key)

/-- Embedding of `cookies::find(const http_cookie&)` (cookie.hpp lines 388-399):
first record matching on name, domain and path. -/
def find_by_full_key (key : http_cookie) (l : List http_cookie) : Option http_cookie :=
  l.find? (fun ck => ck.name == key.name && ck.domain == key.domain && ck.path == key.path)

/-- Embedding of `detail::cookie_megerable` (cookie.hpp lines 639-667): the
admission predicate of the merge walk.  `it` is the name-only lookup performed
first; if the full-key lookup misses, the candidate is admitted outright;
otherwise the value-emptiness/expiry comparison runs against the name-only
match.  (The `none` inner branch is unreachable: a full-key match is in
particular a name match.) -/
def cookie_megerable (element : http_cookie) (container : List http_cookie) : Bool :=
  let it := find_by_name element.name container
  match find_by_full_key element container with
  | none => true
  | some _ =>
    if element.value = "" then false
    else
      match it with
      | none => true
      | some m =>
        if m.value = "" then true
        else if ptime_le element.expires m.expires then false
        else true

/-- Embedding of `std::remove_if` over a `std::vector` with copy assignment,
as called by `remove_cookie`: matching elements are overwritten by the later
non-matching ones, the vector's size is untouched, and the positions past the
kept elements retain their original contents.  The returned iterator is
discarded by the caller. -/
def remove_if_copy (p : http_cookie → Bool) (l : List http_cookie) : List http_cookie :=
  let kept := l.filter (fun x => !p x)
  kept ++ l.drop kept.length

/-- Embedding of `cookies::remove_cookie` (cookie.hpp lines 432-436): calls
`std::remove_if` with a name-equality predicate and ignores the result; no
`erase` follows. -/
def remove_cookie (name : String) (l : List http_cookie) : List http_cookie :=
  remove_if_copy (fun ck => ck.name == name) l

/-! Codec: `save_to_file` / `load_from_file`. -/

/-- Fixed memo block written to a freshly created cookie file
(cookie.hpp lines 160-168). -/
def memo_header : String :=
  "# Netscape HTTP Cookie File\n# http://curl.haxx.se/docs/http-cookies.html\n# This file was generated by libcurl! Edit at your own risk.\n\n"

/-- Text written for one record by `save_to_file` (cookie.hpp lines 170-222).
Note the final `f.write("\t\n", 1)` writes a single byte, the TAB; no newline
is ever emitted after a record. -/
def save_record (default_domain : String) (ck : http_cookie) : String :=
  (if ck.domain = "" then default_domain else ck.domain) ++ "\t" ++
  (if ck.domain = "" then "FALSE" else "TRUE") ++ "\t" ++
  ck.path ++ "\t" ++
  (if ck.secure then "TRUE" else "FALSE") ++ "\t" ++
  (match ck.expires with | none => "0" | some t => toString t) ++ "\t" ++
  ck.name ++ "\t" ++
  ck.value ++ "\t"

/-- Embedding of `cookies::save_to_file` (cookie.hpp lines 145-223) as the byte
string written to the stream: the memo block when the file was empty, then the
record texts in store order. -/
def save_to_file (fresh : Bool) (default_domain : String) (l : List http_cookie) : String :=
  (if fresh then memo_header else "") ++ String.join (l.map (save_record default_domain))

/-- Splitting a character list at a separator character, keeping empty
segments (the behavior of `std::getline` over the whole stream when the
separator is a newline). -/
def splitCh (c : Char) : List Char → List (List Char)
  | [] => [[]]
  | x :: xs =>
    match splitCh c xs with
    | [] => [[]]
    | y :: ys => if x = c then [] :: y :: ys else (x :: y) :: ys

/-- Whitespace trim at both ends, the effect of `boost::trim`. -/
def trimChars (l : List Char) : List Char :=
  ((l.dropWhile Char.isWhitespace).reverse.dropWhile Char.isWhitespace).reverse

/-- Value of a digit run, most significant first. -/
def digitsVal (l : List Char) : Int :=
  ((l.takeWhile Char.isDigit).foldl (fun a c => a * 10 + (c.toNat - 48 : Nat)) (0 : Int))

/-- Embedding of C `atol`: skip leading whitespace, optional sign, then the
longest digit prefix; 0 when there are no digits. -/
def atol (l : List Char) : Int :=
  match l.dropWhile Char.isWhitespace with
  | '-' :: rest => -(digitsVal rest)
  | '+' :: rest => digitsVal rest
  | rest => digitsVal rest

/-- Splitting one stored line on TAB with `boost::token_compress_on`
(cookie.hpp line 252): runs of tabs act as one separator, so empty fields
disappear. -/
def split_tabs (l : List Char) : List (List Char) :=
  (splitCh '\t' l).filter (fun t => t ≠ [])

/-- Decoding of one non-blank, non-comment line (cookie.hpp lines 250-265):
fields are taken positionally at indices 0 (domain), 2 (path), 3 (secure),
4 (expires), 5 (name), 6 (value); index 1 (flag) is unused.  `none` models the
out-of-bounds `std::vector` indexing (undefined behavior) the C++ performs when
a field is missing. -/
def parse_netscape_line (line : List Char) : Option http_cookie :=
  let v := split_tabs line
  match v.get? 0, v.get? 2, v.get? 3, v.get? 4, v.get? 5, v.get? 6 with
  | some d, some p, some sec, some e, some n, some val =>
    some { name := String.mk n, value := String.mk val, domain := String.mk d,
           path := String.mk p, expires := some (atol e),
           httponly := false, secure := sec = "TRUE".toList }
  | _, _, _, _, _, _ => none

/-- Line loop of `load_from_file` (cookie.hpp lines 239-266): blank and `#`
lines are skipped, decoded records are appended to the accumulator in order.
`Except.error acc` reports that a line triggered the out-of-bounds access with
`acc` already committed to the store. -/
def load_lines : List (List Char) → List http_cookie → Except (List http_cookie) (List http_cookie)
  | [], acc => Except.ok acc
  | ln :: rest, acc =>
    let t := trimChars ln
    if t = [] then load_lines rest acc
    else if t.head? = some '#' then load_lines rest acc
    else
      match parse_netscape_line t with
      | some ck => load_lines rest (acc ++ [ck])
      | none => Except.error acc

/-- Embedding of `cookies::load_from_file` (cookie.hpp lines 228-267) on the
file's byte content: split into lines and run the line loop on an initially
empty accumulator (the records are pushed straight into `m_cookies`; we expose
the appended suffix). -/
def load_from_file (content : String) : Except (List http_cookie) (List http_cookie) :=
  load_lines (splitCh '\n' content.toList) []

/-! Parser: `parse_cookie_string` (cookie.hpp lines 474-627). -/

/-- Modelled from the spec: `detail::is_char` lives in avhttp/detail/parsers.hpp,
which is not under src/.  Per the spec (section 4.1) it accepts the RFC 2616
CHAR set, i.e. codes 0..127. -/
def is_char (c : Char) : Bool := c.toNat ≤ 127

/-- Modelled from the spec: `detail::is_tspecial` from avhttp/detail/parsers.hpp
(not under src/), the RFC 2616 separator set: parens, angle brackets, at-sign,
comma, semicolon, colon, backslash, double quote, slash, square brackets,
question mark, equals, curly braces (codes 123 and 125), space and tab. -/
def is_tspecial (c : Char) : Bool :=
  c ∈ "()<>@,;:\\\"/[]?= \t".toList || c.toNat = 123 || c.toNat = 125

/-- States of the character-level state machine (cookie.hpp lines 477-484). -/
inductive PK where
  | nameStart
  | name
  | valueStart
  | value
  | bad
  deriving DecidableEq

/-- Loop state of `parse_cookie_string`: the state-machine state, the `name`
and `value` accumulators, the temporary `std::map<std::string, std::string>`
(as a key-sorted association list) and the two flags of the in-progress
`cookie_tmp` record. -/
structure PSt where
  k : PK
  name : List Char
  value : List Char
  tmp : List (List Char × List Char)
  secure : Bool
  httponly : Bool
  deriving DecidableEq

/-- Insert-or-overwrite into the key-sorted association list modelling
`std::map<std::string, std::string>` under lexicographic string order
(`tmp[name] = value`). -/
def mapInsert (k v : List Char) : List (List Char × List Char) → List (List Char × List Char)
  | [] => [(k, v)]
  | (k', v') :: rest =>
    if k < k' then (k, v) :: (k', v') :: rest
    else if k = k' then (k, v) :: rest
    else (k', v') :: mapInsert k v rest

/-- Transition of the parse loop on one character (cookie.hpp lines 493-571).
`bad` is absorbing, matching the loop's `state != cookie_bad` exit
condition. -/
def pstep (s : PSt) (c : Char) : PSt :=
  match s.k with
  | PK.bad => s
  | PK.nameStart =>
    if c = ' ' then s
    else if is_char c then { s with k := PK.name, name := s.name ++ [c] }
    else { s with k := PK.bad }
  | PK.name =>
    if c = ';' then
      if s.name = "secure".toList then
        { s with k := PK.nameStart, secure := true, name := [] }
      else if s.name = "httponly".toList then
        { s with k := PK.nameStart, httponly := true, name := [] }
      else { s with k := PK.bad, name := [] }
    else if c = '=' then { s with k := PK.valueStart, value := [] }
    else if is_tspecial c || c = ':' then { s with k := PK.nameStart, name := [] }
    else if is_char c || c = '_' then { s with name := s.name ++ [c] }
    else s
  | PK.valueStart =>
    if c = ';' then
      { s with k := PK.nameStart, tmp := mapInsert s.name s.value s.tmp,
               name := [], value := [] }
    else if c = '\"' || c = '\'' then s
    else if is_char c then { s with k := PK.value, value := s.value ++ [c] }
    else { s with k := PK.bad }
  | PK.value =>
    if c = ';' || c = '\"' || c = '\'' then
      { s with k := PK.nameStart, tmp := mapInsert s.name s.value s.tmp,
               name := [], value := [] }
    else if is_char c then { s with value := s.value ++ [c] }
    else { s with k := PK.bad }

/-- Initial loop state: `cookie_name_start`, empty accumulators, empty map,
default `cookie_tmp` flags. -/
def init_state : PSt :=
  { k := PK.nameStart, name := [], value := [], tmp := [], secure := false, httponly := false }

/-- End-of-input handling after the loop (cookie.hpp lines 572-586): a pending
bare name sets `secure`/`httponly` and is otherwise silently dropped (note: no
transition to bad here, unlike an explicit `;`); a pending non-empty value is
recorded in the map; the `bad` state fails the parse (`none`). -/
def flushEOI (s : PSt) : Option PSt :=
  if s.k = PK.name ∧ s.name ≠ [] then
    if s.name = "secure".toList then some { s with secure := true }
    else if s.name = "httponly".toList then some { s with httponly := true }
    else some s
  else if s.k = PK.value ∧ s.value ≠ [] then
    some { s with tmp := mapInsert s.name s.value s.tmp }
  else if s.k = PK.bad then none
  else some s

/-- Tokenizing phase of `parse_cookie_string`: run the state machine over the
input and apply the end-of-input handling. -/
def parse_raw (l : List Char) : Option PSt :=
  flushEOI (l.foldl pstep init_state)

/-- ASCII lower-casing, the effect of `boost::to_lower_copy` under the C
locale. -/
def to_lower (l : List Char) : List Char :=
  l.map (fun c => if 'A' ≤ c ∧ c ≤ 'Z' then Char.ofNat (c.toNat + 32) else c)

/-- Result of the reserved-attribute extraction walk (cookie.hpp lines
588-615): the shared `expires`, `domain`, `path` values, whether the
`BOOST_ASSERT(0)` on a failed `parse_http_date` was reached, and the map
entries that remain. -/
structure ExtractResult where
  expires : Option Int
  domain : String
  path : String
  assert_failed : Bool
  remaining : List (List Char × List Char)
  deriving DecidableEq

/-- Walk over the temporary map extracting the reserved attributes
case-insensitively (cookie.hpp lines 588-615).  `dp` is the external
`detail::parse_http_date` primitive (avhttp/detail/parsers.hpp, not under
src/).  On a date-parse failure the C++ executes `BOOST_ASSERT(0)` — a process
abort in debug builds and a no-op in release builds — and leaves `expires`
unchanged; the model records that event in `assert_failed`.  An empty `domain`
attribute value is replaced by the store's default domain when the latter is
non-empty. -/
def extract_attrs (dp : String → Option Int) (dd : String) :
    List (List Char × List Char) → ExtractResult → ExtractResult
  | [], acc => acc
  | (k, v) :: rest, acc =>
    if to_lower k = "expires".toList then
      match dp (String.mk v) with
      | some t => extract_attrs dp dd rest { acc with expires := some t }
      | none => extract_attrs dp dd rest { acc with assert_failed := true }
    else if to_lower k = "domain".toList then
      extract_attrs dp dd rest
        { acc with domain := if v = [] ∧ dd ≠ "" then dd else String.mk v }
    else if to_lower k = "path".toList then
      extract_attrs dp dd rest { acc with path := String.mk v }
    else
      let r := extract_attrs dp dd rest acc
      { r with remaining := (k, v) :: r.remaining }

/-- Initial accumulator of the attribute-extraction walk: the shared fields of
the default-constructed `cookie_tmp`. -/
def init_extract : ExtractResult :=
  { expires := none, domain := "", path := "", assert_failed := false, remaining := [] }

/-- Record built for one surviving map entry (cookie.hpp lines 618-624): the
entry's key and value plus the shared attributes of `cookie_tmp`. -/
def mk_record (r : ExtractResult) (s : PSt) (kv : List Char × List Char) : http_cookie :=
  { name := String.mk kv.1, value := String.mk kv.2, domain := r.domain,
    path := r.path, expires := r.expires, httponly := s.httponly,
    secure := s.secure }

/-- Embedding of `cookies::parse_cookie_string` (cookie.hpp lines 474-627).
`none` is the `return false` path (state `cookie_bad`); on success the Bool
reports whether the `BOOST_ASSERT(0)` was reached, and every map entry left
after attribute extraction becomes one record cloning the shared domain, path,
expiry and flags, in map (key-sorted) order. -/
def parse_cookie_string (dp : String → Option Int) (default_domain : String)
    (str : String) : Option (Bool × List http_cookie) :=
  match parse_raw str.toList with
  | none => none
  | some s =>
    let r := extract_attrs dp default_domain s.tmp init_extract
    some (r.assert_failed, r.remaining.map (mk_record r s))

/-- Embedding of `cookies::operator()(const std::string&, const std::string&)`
(cookie.hpp lines 272-279): unconditional `push_back` of a record with the
given name and value and default remaining fields. -/
def insert_name_value (l : List http_cookie) (n v : String) : List http_cookie :=
  l ++ [{ default_cookie with name := n, value := v }]

/-- Embedding of `cookies::operator()(const http_cookie&)` (cookie.hpp lines
283-287): unconditional `push_back`. -/
def insert_record (l : List http_cookie) (ck : http_cookie) : List http_cookie :=
  l ++ [ck]

/-- Embedding of `cookies::operator()(const std::string&)` (cookie.hpp lines
290-303): parse the Set-Cookie string and append the produced records on
success; append nothing when the parse fails. -/
def insert_set_cookie (dp : String → Option Int) (dd : String)
    (l : List http_cookie) (str : String) : List http_cookie :=
  match parse_cookie_string dp dd str with
  | some (_, cs) => l ++ cs
  | none => l

/-! Sample records used by the concrete evaluations below. -/

/-- Sample record: name `a`, value `v`, no domain, no path, session expiry. -/
def ckA : http_cookie := { default_cookie with name := "a", value := "v" }

/-- Sample record with all seven fields populated and epoch expiry 0. -/
def ckN : http_cookie :=
  { name := "n", value := "v", domain := "d", path := "p", expires := some 0,
    httponly := false, secure := false }

/-- First of the two records of the round-trip example. -/
def ckR1 : http_cookie :=
  { name := "a", value := "1", domain := "d1", path := "p1", expires := some 1,
    httponly := false, secure := false }

/-- Second of the two records of the round-trip example. -/
def ckR2 : http_cookie :=
  { name := "b", value := "2", domain := "d2", path := "p2", expires := some 2,
    httponly := false, secure := false }

/-- Record decoded from the well-formed first line of the short-line example. -/
def ckD : http_cookie :=
  { name := "n", value := "v", domain := "d", path := "p", expires := some 5,
    httponly := false, secure := false }

/-- Record produced by parsing `a=1` (shared attributes all default). -/
def ckParsedA : http_cookie :=
  { name := "a", value := "1", domain := "", path := "", expires := none,
    httponly := false, secure := false }

/-- Record produced by parsing `b=2` (shared attributes all default). -/
def ckParsedB : http_cookie :=
  { name := "b", value := "2", domain := "", path := "", expires := none,
    httponly := false, secure := false }

/-- C1: the claim says `remove_cookie(name)` removes every record whose name
matches and the store shrinks accordingly, with no matching record left.  The
code calls `std::remove_if` and discards its result without `erase`, so on the
one-record store holding `ckA` (name `a`) the store afterwards still holds
`ckA`: its size is unchanged at 1 and a record named `a` is still found.  This
contradicts the claim and the spec's own design note (section 9), which calls
the filter-without-compaction behavior a defect. -/
theorem remove_cookie_does_not_erase :
    remove_cookie "a" [ckA] = [ckA] ∧
    (remove_cookie "a" [ckA]).length = 1 ∧
    find_by_name "a" (remove_cookie "a" [ckA]) = some ckA := by
  decide

/-- C2: the claim says every record is written as a tab-separated line
terminated by a newline character.  The code's final `f.write("\t\n", 1)`
writes a single byte — the TAB — so the record text for `ckN` ends in a tab
and contains no newline at all. -/
theorem save_record_not_newline_terminated :
    save_to_file false "" [ckN] = "d\tTRUE\tp\tFALSE\t0\tn\tv\t" ∧
    '\n' ∉ (save_to_file false "" [ckN]).toList := by
  decide

/-- C3: the claim says decoding the bytes produced by encoding a store yields
records with the same domain, path, secure, name, value and one-second expiry.
Because the encoder never writes a record-terminating newline (C2), the
two-record store `[ckR1, ckR2]` is written as a single line, and the decoder
reads only the first seven tab-separated fields of it: the result is the
one-record store `[ckR1]`, losing `ckR2` entirely. -/
theorem load_save_roundtrip_loses_records :
    load_from_file (save_to_file false "" [ckR1, ckR2]) = Except.ok [ckR1] ∧
    [ckR1] ≠ [ckR1, ckR2] := by
  constructor
  · rfl
  · decide

/-- C4: the claim says a non-blank, non-comment line with fewer than seven
fields is a fatal decode error reported to the caller, with no partial load
committed.  On a file whose first line is well formed and whose second line
`x\ty` has only two fields, the code instead indexes `split_vec[4]` out of
bounds (undefined behavior, modelled by the `Except.error` outcome) after the
first line's record has already been pushed into the store. -/
theorem load_short_line_out_of_bounds :
    load_from_file "d\tTRUE\tp\tFALSE\t5\tn\tv\nx\ty" = Except.error [ckD] := by
  rfl

/-- C7: the claim says an unparseable `expires` value makes the parse return a
recoverable error to the caller without aborting the process.  With a date
primitive that rejects every string, parsing `a=1; expires=x` instead reaches
`BOOST_ASSERT(0)` (first component `true`: a process abort in debug builds, a
no-op in release builds) and still returns success with one record and no
expiry — no error ever reaches the caller. -/
theorem parse_bad_expires_asserts_and_succeeds :
    parse_cookie_string (fun _ => none) "" "a=1; expires=x" = some (true, [ckParsedA]) := by
  decide

/-- C8 counterexample: the claim says input ending mid-name is handled exactly
as if a trailing `;` were present, under which a pending bare name other than
`secure`/`httponly` fails the whole parse.  The bare name `x` at end of input
parses successfully (zero records), while the same pending name followed by an
explicit `;` fails the parse — the two are not handled alike. -/
theorem parse_eoi_bare_name_not_like_semicolon :
    parse_cookie_string (fun _ => none) "" "x" = some (false, []) ∧
    parse_cookie_string (fun _ => none) "" "x;" = none := by
  decide

/-- C9 counterexample: the claim says every record actually stored has a
non-empty name, over all public operations.  The insertion operator
`operator()(name, value)` performs no validation: inserting the empty name
stores a record whose name is the empty string. -/
theorem insert_name_value_stores_empty_name :
    (insert_name_value [] "" "v").map http_cookie.name = [""] := by
  decide

/-- Helper: a successful full-key lookup entails a successful name-only
lookup, since the full-key predicate includes name equality. -/
lemma find_name_isSome_of_find_full (e : http_cookie) (c : List http_cookie)
    (f : http_cookie) (hf : find_by_full_key e c = some f) :
    ∃ m, find_by_name e.name c = some m := by
  cases hm : find_by_name e.name c with
  | some m => exact ⟨m, rfl⟩
  | none =>
    exfalso
    have hfin : f ∈ c := List.mem_of_find?_eq_some hf
    have hfp := List.find?_some hf
    have hnone := List.find?_eq_none.mp hm f hfin
    simp only [Bool.and_eq_true, beq_iff_eq] at hfp
    simp only [beq_iff_eq] at hnone
    exact hnone hfp.1.1

/-- C6: during the merge admission walk a candidate is admitted exactly when
its full key `(name, domain, path)` is absent from the result so far, or else
when its value is non-empty and the first result record matching by name alone
either has an empty value or a strictly earlier expiry than the candidate
(expiries compared with `none`, never-expires, as the largest value, as the
spec orders them). -/
theorem cookie_megerable_characterization :
    ∀ (e : http_cookie) (c : List http_cookie),
      cookie_megerable e c = true ↔
        (find_by_full_key e c = none ∨
          (e.value ≠ "" ∧ ∃ m, find_by_name e.name c = some m ∧
            (m.value = "" ∨ ptime_lt m.expires e.expires = true))) := by
  intro e c
  cases hf : find_by_full_key e c with
  | none => simp [cookie_megerable, hf]
  | some f =>
    obtain ⟨m, hm⟩ := find_name_isSome_of_find_full e c f hf
    by_cases hev : e.value = ""
    · simp [cookie_megerable, hf, hm, hev]
    · by_cases hmv : m.value = ""
      · simp [cookie_megerable, hf, hm, hev, hmv]
      · by_cases hlt : ptime_lt m.expires e.expires = true
        · have hle : ptime_le e.expires m.expires = false := by
            simp [ptime_le, hlt]
          simp [cookie_megerable, hf, hm, hev, hmv, hle, hlt]
        · have hle : ptime_le e.expires m.expires = true := by
            simp only [Bool.not_eq_true] at hlt
            simp [ptime_le, hlt]
          simp [cookie_megerable, hf, hm, hev, hmv, hle, hlt]

/-! Parser lemmas: invariants of the temporary map through the loop. -/

/-- Helper: a member of `mapInsert k v l` is the inserted pair or a member of
`l`. -/
lemma mem_mapInsert (k v : List Char) :
    ∀ (l : List (List Char × List Char)) (kv : List Char × List Char),
      kv ∈ mapInsert k v l → kv = (k, v) ∨ kv ∈ l := by
  intro l
  induction l with
  | nil =>
    intro kv h
    simp only [mapInsert, List.mem_singleton] at h
    exact Or.inl h
  | cons hd tl ih =>
    obtain ⟨k', v'⟩ := hd
    intro kv h
    simp only [mapInsert] at h
    split_ifs at h with h1 h2
    · rcases List.mem_cons.mp h with h3 | h3
      · exact Or.inl h3
      · exact Or.inr h3
    · rcases List.mem_cons.mp h with h3 | h3
      · exact Or.inl h3
      · exact Or.inr (List.mem_cons_of_mem _ h3)
    · rcases List.mem_cons.mp h with h3 | h3
      · exact Or.inr (by simp [h3])
      · rcases ih kv h3 with h4 | h4
        · exact Or.inl h4
        · exact Or.inr (List.mem_cons_of_mem _ h4)

/-- Helper: `mapInsert` keeps the association list strictly sorted by key. -/
lemma mapInsert_pairwise (k v : List Char) :
    ∀ (l : List (List Char × List Char)),
      l.Pairwise (fun a b => a.1 < b.1) →
      (mapInsert k v l).Pairwise (fun a b => a.1 < b.1) := by
  intro l
  induction l with
  | nil => intro _; simp [mapInsert]
  | cons hd tl ih =>
    obtain ⟨k', v'⟩ := hd
    intro hp
    rw [List.pairwise_cons] at hp
    obtain ⟨hhd, htl⟩ := hp
    simp only [mapInsert]
    split_ifs with h1 h2
    · rw [List.pairwise_cons]
      constructor
      · intro b hb
        rcases List.mem_cons.mp hb with h3 | h3
        · rw [h3]; exact h1
        · exact lt_trans h1 (hhd b h3)
      · rw [List.pairwise_cons]
        exact ⟨hhd, htl⟩
    · rw [List.pairwise_cons]
      refine ⟨?_, htl⟩
      intro b hb
      rw [h2]
      exact hhd b hb
    · rw [List.pairwise_cons]
      refine ⟨?_, ih htl⟩
      intro b hb
      rcases mem_mapInsert k v tl b hb with h3 | h3
      · rw [h3]
        exact lt_of_le_of_ne (le_of_not_lt h1) (Ne.symm h2)
      · exact hhd b h3

/-- Loop invariant for C9: the `name` accumulator is non-empty in the states
that can record a map entry, and every key already recorded is non-empty. -/
def NamesInv (s : PSt) : Prop :=
  (s.k = PK.name → s.name ≠ []) ∧
  ((s.k = PK.valueStart ∨ s.k = PK.value) → s.name ≠ []) ∧
  (∀ kv ∈ s.tmp, kv.1 ≠ [])

/-- Helper: `NamesInv` holds at the initial loop state. -/
lemma init_names_inv : NamesInv init_state := by
  refine ⟨?_, ?_, ?_⟩
  · intro hh
    exact absurd hh (by decide)
  · intro hh
    exact absurd hh (by decide)
  · intro kv hkv
    cases hkv

/-- Helper: one parser step preserves `NamesInv`. -/
lemma pstep_names_inv (s : PSt) (c : Char) (h : NamesInv s) : NamesInv (pstep s c) := by
  obtain ⟨k0, name0, value0, tmp0, sec0, http0⟩ := s
  obtain ⟨h1, h2, h3⟩ := h
  have hmap : name0 ≠ [] → ∀ kv ∈ mapInsert name0 value0 tmp0, kv.1 ≠ [] := by
    intro hn kv hkv
    rcases mem_mapInsert name0 value0 tmp0 kv hkv with h4 | h4
    · rw [h4]; exact hn
    · exact h3 kv h4
  cases k0 with
  | bad => exact ⟨h1, h2, h3⟩
  | nameStart =>
    simp only [pstep]
    split_ifs with hc1 hc2
    · exact ⟨h1, h2, h3⟩
    · exact ⟨fun _ => by simp, fun hh => by simp at hh, h3⟩
    · exact ⟨fun hh => by simp at hh, fun hh => by simp at hh, h3⟩
  | name =>
    simp only [pstep]
    split_ifs with hc1 hc2 hc3 hc4 hc5 hc6
    · exact ⟨fun hh => by simp at hh, fun hh => by simp at hh, h3⟩
    · exact ⟨fun hh => by simp at hh, fun hh => by simp at hh, h3⟩
    · exact ⟨fun hh => by simp at hh, fun hh => by simp at hh, h3⟩
    · exact ⟨fun hh => by simp at hh, fun _ => h1 rfl, h3⟩
    · exact ⟨fun hh => by simp at hh, fun hh => by simp at hh, h3⟩
    · exact ⟨fun _ => by simp, fun hh => by simp at hh, h3⟩
    · exact ⟨h1, h2, h3⟩
  | valueStart =>
    simp only [pstep]
    split_ifs with hc1 hc2 hc3
    · exact ⟨fun hh => by simp at hh, fun hh => by simp at hh,
        hmap (h2 (Or.inl rfl))⟩
    · exact ⟨h1, h2, h3⟩
    · exact ⟨fun hh => by simp at hh, fun _ => h2 (Or.inl rfl), h3⟩
    · exact ⟨fun hh => by simp at hh, fun hh => by simp at hh, h3⟩
  | value =>
    simp only [pstep]
    split_ifs with hc1 hc2
    · exact ⟨fun hh => by simp at hh, fun hh => by simp at hh,
        hmap (h2 (Or.inr rfl))⟩
    · exact ⟨fun hh => by simp at hh, fun _ => h2 (Or.inr rfl), h3⟩
    · exact ⟨fun hh => by simp at hh, fun hh => by simp at hh, h3⟩

/-- Helper: a predicate preserved by `pstep` is preserved by the whole loop. -/
lemma foldl_pstep_pres (P : PSt → Prop) (hstep : ∀ s c, P s → P (pstep s c)) :
    ∀ (l : List Char) (s : PSt), P s → P (l.foldl pstep s) := by
  intro l
  induction l with
  | nil => intro s h; exact h
  | cons c cs ih =>
    intro s h
    exact ih _ (hstep s c h)

/-- Helper: the end-of-input handling keeps all map keys non-empty. -/
lemma flushEOI_names (s s' : PSt) (hf : flushEOI s = some s') (h : NamesInv s) :
    ∀ kv ∈ s'.tmp, kv.1 ≠ [] := by
  obtain ⟨h1, h2, h3⟩ := h
  unfold flushEOI at hf
  split_ifs at hf with hA hB hC hD hE
  all_goals cases hf
  all_goals try exact h3
  intro kv hkv
  rcases mem_mapInsert s.name s.value s.tmp kv hkv with h4 | h4
  · rw [h4]
    exact h2 (Or.inr hD.1)
  · exact h3 kv h4

/-- Helper: the end-of-input handling keeps the map strictly key-sorted. -/
lemma flushEOI_pairwise (s s' : PSt) (hf : flushEOI s = some s')
    (h : s.tmp.Pairwise (fun a b => a.1 < b.1)) :
    s'.tmp.Pairwise (fun a b => a.1 < b.1) := by
  unfold flushEOI at hf
  split_ifs at hf with hA hB hC hD hE
  all_goals cases hf
  all_goals try exact h
  exact mapInsert_pairwise _ _ _ h

/-- Helper: one parser step keeps the map strictly key-sorted. -/
lemma pstep_pairwise (s : PSt) (c : Char)
    (h : s.tmp.Pairwise (fun a b => a.1 < b.1)) :
    (pstep s c).tmp.Pairwise (fun a b => a.1 < b.1) := by
  obtain ⟨k0, name0, value0, tmp0, sec0, http0⟩ := s
  cases k0 with
  | bad => exact h
  | nameStart =>
    simp only [pstep]
    split_ifs <;> exact h
  | name =>
    simp only [pstep]
    split_ifs <;> exact h
  | valueStart =>
    simp only [pstep]
    split_ifs
    · exact mapInsert_pairwise _ _ _ h
    · exact h
    · exact h
    · exact h
  | value =>
    simp only [pstep]
    split_ifs
    · exact mapInsert_pairwise _ _ _ h
    · exact h
    · exact h

/-- Helper: the attribute-extraction walk only drops entries: its surviving
entries form a sublist of the input followed by the accumulator's. -/
lemma extract_attrs_remaining_sublist (dp : String → Option Int) (dd : String) :
    ∀ (l : List (List Char × List Char)) (acc : ExtractResult),
      (extract_attrs dp dd l acc).remaining.Sublist (l ++ acc.remaining) := by
  intro l
  induction l with
  | nil =>
    intro acc
    simp [extract_attrs]
  | cons hd tl ih =>
    intro acc
    obtain ⟨k, v⟩ := hd
    simp only [extract_attrs]
    split_ifs with h1 h2 h3 h4
    · cases hdp : dp (String.mk v) with
      | some t =>
        simp only [hdp]
        exact List.Sublist.cons _ (ih _)
      | none =>
        simp only [hdp]
        exact List.Sublist.cons _ (ih _)
    · exact List.Sublist.cons _ (ih _)
    · exact List.Sublist.cons _ (ih _)
    · exact List.Sublist.cons _ (ih _)
    · exact List.Sublist.cons₂ _ (ih _)

/-- Helper: evaluation equation of `parse_cookie_string` on a successful
tokenize. -/
lemma parse_cookie_string_eq (dp : String → Option Int) (dd str : String) (s : PSt)
    (hpr : parse_raw str.toList = some s) :
    parse_cookie_string dp dd str =
      some ((extract_attrs dp dd s.tmp init_extract).assert_failed,
        (extract_attrs dp dd s.tmp init_extract).remaining.map
          (mk_record (extract_attrs dp dd s.tmp init_extract) s)) := by
  unfold parse_cookie_string
  rw [hpr]

/-- Helper: a non-empty character list makes a non-empty string. -/
lemma string_mk_ne_empty (l : List Char) (h : l ≠ []) : String.mk l ≠ "" := by
  intro hc
  exact h (congrArg String.data hc)

/-- C8 (amended): end of input mid-name or mid-value flushes the pending data
much like a trailing `;`, except for one case: a pending bare name sets
`secure`/`httponly` when it is one of those two words, but any OTHER pending
bare name is silently dropped and the parse still succeeds, whereas the same
pending name followed by an explicit `;` drives the machine to `bad` and fails
the whole parse; a pending non-empty value is recorded in the temporary map
exactly as `;` would record it. -/
theorem flushEOI_end_of_input_cases :
    ∀ s : PSt,
      (s.k = PK.name → s.name ≠ [] →
        ((s.name = "secure".toList → flushEOI s = some { s with secure := true }) ∧
         (s.name = "httponly".toList → flushEOI s = some { s with httponly := true }) ∧
         (s.name ≠ "secure".toList → s.name ≠ "httponly".toList →
           flushEOI s = some s ∧ (pstep s ';').k = PK.bad))) ∧
      (s.k = PK.value → s.value ≠ [] →
        flushEOI s = some { s with tmp := mapInsert s.name s.value s.tmp } ∧
        (pstep s ';').tmp = mapInsert s.name s.value s.tmp) := by
  intro s
  constructor
  · intro hk hn
    refine ⟨?_, ?_, ?_⟩
    · intro hs
      simp [flushEOI, hk, hn, hs]
    · intro hs
      have hns : s.name ≠ "secure".toList := by
        rw [hs]
        decide
      simp [flushEOI, hk, hn, hs, hns]
    · intro hs1 hs2
      simp only [String.toList] at hs1 hs2
      constructor
      · simp [flushEOI, hk, hn, hs1, hs2]
      · obtain ⟨k0, name0, value0, tmp0, sec0, http0⟩ := s
        simp only at hk
        subst hk
        simp only at hs1 hs2
        simp [pstep, hs1, hs2]
  · intro hk hv
    constructor
    · have hnotname : ¬ (s.k = PK.name ∧ s.name ≠ []) := by
        rw [hk]
        simp
      simp [flushEOI, hnotname, hk, hv]
    · obtain ⟨k0, name0, value0, tmp0, sec0, http0⟩ := s
      simp only at hk
      subst hk
      simp [pstep]

/-- Witness for the C8 amended theorem: in the loop state reached after the
raw input `x` (mid-name, pending bare name `x`), the end-of-input handling
succeeds leaving the state unchanged, while an explicit `;` would drive the
machine to `bad`. -/
theorem flushEOI_end_of_input_witness :
    flushEOI { k := PK.name, name := ['x'], value := [], tmp := [],
               secure := false, httponly := false } =
      some { k := PK.name, name := ['x'], value := [], tmp := [],
             secure := false, httponly := false } ∧
    (pstep { k := PK.name, name := ['x'], value := [], tmp := [],
             secure := false, httponly := false } ';').k = PK.bad :=
  ((flushEOI_end_of_input_cases _).1 rfl (by decide)).2.2 (by decide) (by decide)

/-- C9 (amended): every record emitted by the Set-Cookie parser has a
non-empty name, so stores built exclusively through parse-and-insert satisfy
the non-empty-name invariant; the direct insertion forms perform no
validation (see the counterexample) and preserve it only when callers pass
non-empty names. -/
theorem parse_cookie_string_names_nonempty :
    ∀ (dp : String → Option Int) (dd str : String) (a : Bool) (recs : List http_cookie),
      parse_cookie_string dp dd str = some (a, recs) → ∀ ck ∈ recs, ck.name ≠ "" := by
  intro dp dd str a recs hp ck hck
  cases hpr : parse_raw str.toList with
  | none =>
    unfold parse_cookie_string at hp
    rw [hpr] at hp
    cases hp
  | some s =>
    rw [parse_cookie_string_eq dp dd str s hpr] at hp
    injection hp with hp2
    have hrecs : (extract_attrs dp dd s.tmp init_extract).remaining.map
        (mk_record (extract_attrs dp dd s.tmp init_extract) s) = recs :=
      congrArg Prod.snd hp2
    subst hrecs
    obtain ⟨kv, hkv, hckeq⟩ := List.mem_map.mp hck
    have hinv : NamesInv (str.toList.foldl pstep init_state) :=
      foldl_pstep_pres NamesInv pstep_names_inv str.toList init_state init_names_inv
    have hkeys : ∀ p ∈ s.tmp, p.1 ≠ [] := by
      have hfl : flushEOI (str.toList.foldl pstep init_state) = some s := hpr
      exact flushEOI_names _ s hfl hinv
    have hsub : (extract_attrs dp dd s.tmp init_extract).remaining.Sublist s.tmp := by
      have h0 := extract_attrs_remaining_sublist dp dd s.tmp init_extract
      simpa [init_extract] using h0
    have hmem : kv ∈ s.tmp := hsub.subset hkv
    have hne : kv.1 ≠ [] := hkeys kv hmem
    rw [← hckeq]
    exact string_mk_ne_empty kv.1 hne

/-- Witness for the C9 amended theorem: parsing `a=1` yields the record
`ckParsedA`, whose name is non-empty. -/
theorem parse_names_nonempty_witness : ckParsedA.name ≠ "" :=
  parse_cookie_string_names_nonempty (fun _ => none) "" "a=1" false [ckParsedA]
    (by decide) ckParsedA (by simp)

/-- C10: whenever the parser succeeds, the records it emits are ordered by
strictly ascending name, lexicographically on the characters — the iteration
order of the temporary `std::map` — rather than by position of the pairs in
the input string. -/
theorem parse_cookie_string_names_sorted :
    ∀ (dp : String → Option Int) (dd str : String) (a : Bool) (recs : List http_cookie),
      parse_cookie_string dp dd str = some (a, recs) →
      recs.Pairwise (fun x y => x.name.data < y.name.data) := by
  intro dp dd str a recs hp
  cases hpr : parse_raw str.toList with
  | none =>
    unfold parse_cookie_string at hp
    rw [hpr] at hp
    cases hp
  | some s =>
    rw [parse_cookie_string_eq dp dd str s hpr] at hp
    injection hp with hp2
    have hrecs : (extract_attrs dp dd s.tmp init_extract).remaining.map
        (mk_record (extract_attrs dp dd s.tmp init_extract) s) = recs :=
      congrArg Prod.snd hp2
    subst hrecs
    have hinv : (str.toList.foldl pstep init_state).tmp.Pairwise (fun a b => a.1 < b.1) :=
      foldl_pstep_pres (fun t => t.tmp.Pairwise (fun a b => a.1 < b.1))
        pstep_pairwise str.toList init_state (by simp [init_state])
    have hpair : s.tmp.Pairwise (fun a b => a.1 < b.1) :=
      flushEOI_pairwise _ s hpr hinv
    have hsub : (extract_attrs dp dd s.tmp init_extract).remaining.Sublist s.tmp := by
      have h0 := extract_attrs_remaining_sublist dp dd s.tmp init_extract
      simpa [init_extract] using h0
    have hrem : (extract_attrs dp dd s.tmp init_extract).remaining.Pairwise
        (fun a b => a.1 < b.1) := hpair.sublist hsub
    rw [List.pairwise_map]
    exact hrem.imp (fun h => h)

/-- Witness for C10: parsing `b=2; a=1` emits the records named `a` then `b`,
in ascending name order. -/
theorem parse_names_sorted_witness :
    ([ckParsedA, ckParsedB] : List http_cookie).Pairwise
      (fun x y => x.name.data < y.name.data) :=
  parse_cookie_string_names_sorted (fun _ => none) "" "b=2; a=1" false
    [ckParsedA, ckParsedB] (by decide)

end Avhttp
